import Mathlib

/-!
Verification development for the ticos-in-tech job-record pipeline.

This file gives a shallow embedding, in Lean 4, of the pipeline logic of the
repository: signature generation and slug generation
(`src/scraper/processors/job_processor.py`), technology extraction and
matching (`src/scraper/processors/technology_extractor.py`), the job upsert
engine (`JobProcessor.process_job`, `JobProcessor.mark_inactive_jobs` together
with the repository operations of
`src/infrastructure/database/repositories/job.py` and `base.py`), and the
historical signature ledger (`manage_past_jobs_signatures` of
`scripts/scraper/job_stage_4.py`).

Modelling conventions:
* Python strings are Lean `String`s; `str.lower()` is modelled as ASCII
  lowering and the `\s` class of `re` as the six ASCII whitespace characters.
* Database state is explicit (`PState`); each repository call is a function
  from state to state.  SQL result order is modelled as insertion order, and
  Python `set`/`dict` iteration order is modelled as insertion order.
* The LLM collaborator and failure injection points (a uniqueness race on
  insert, failing link writes) are an explicit `Oracle` parameter; Python
  exceptions are modelled with `Except`, and `try/except` blocks by matching
  on the `Except` value.
* `hashlib.sha256(...).hexdigest()` is embedded as a full SHA-256
  implementation (FIPS 180-4) over `Nat` with explicit `% 2^32` reductions.
-/

namespace TicosInTech

/-! ## Python string helpers -/

/-- The characters matched by Python's `\s` regex class (ASCII range), which
is also the set stripped by `str.strip()` for the strings this pipeline
handles. -/
def isPySpace (c : Char) : Bool :=
  c == ' ' || c == '\t' || c == '\n' || c == '\r' || c == '\x0b' || c == '\x0c'

/-- Model of `str.lower()` on a single character (ASCII). -/
def pyLowerChar (c : Char) : Char :=
  if 'A' ≤ c && c ≤ 'Z' then Char.ofNat (c.toNat + 32) else c

/-- Model of `str.lower()` (ASCII). -/
def strLower (s : String) : String := String.mk (s.data.map pyLowerChar)

/-- Model of `str.strip()` on a character list. -/
def pyStripList (l : List Char) : List Char :=
  ((l.dropWhile isPySpace).reverse.dropWhile isPySpace).reverse

/-- Model of `str.strip()`. -/
def pyStrip (s : String) : String := String.mk (pyStripList s.data)

/-- Worker for `re.sub(r"\s+", " ", ·)`: the boolean records whether we are
inside a whitespace run that has already emitted its single space. -/
def collapseWsAux : Bool → List Char → List Char
  | _, [] => []
  | inRun, c :: rest =>
    if isPySpace c then
      if inRun then collapseWsAux true rest
      else ' ' :: collapseWsAux true rest
    else c :: collapseWsAux false rest

/-- Model of `re.sub(r"\s+", " ", s)`: replace every maximal whitespace run
by a single space. -/
def collapseWs (s : String) : String := String.mk (collapseWsAux false s.data)

/-- Python's `a in b` on strings: `a` is a contiguous substring of `b`. -/
def pySubstr (a b : String) : Bool := decide (a.data <:+: b.data)

/-- Python truthiness of an optional string (`not x` is true for a missing
value and for the empty string). -/
def pyFalsyStr : Option String → Bool
  | none => true
  | some s => s == ""

/-! ## SHA-256 (FIPS 180-4), over `Nat` with explicit `% 2 ^ 32` -/

/-- Truncation to 32 bits. -/
def w32 (n : Nat) : Nat := n % 2 ^ 32

/-- Right rotation of a 32-bit word. -/
def rotr (n x : Nat) : Nat := w32 ((x >>> n) ||| (x <<< (32 - n)))

/-- The SHA-256 round constants. -/
def sha256K : List Nat :=
  [1116352408, 1899447441, 3049323471, 3921009573,
   961987163, 1508970993, 2453635748, 2870763221,
   3624381080, 310598401, 607225278, 1426881987,
   1925078388, 2162078206, 2614888103, 3248222580,
   3835390401, 4022224774, 264347078, 604807628,
   770255983, 1249150122, 1555081692, 1996064986,
   2554220882, 2821834349, 2952996808, 3210313671,
   3336571891, 3584528711, 113926993, 338241895,
   666307205, 773529912, 1294757372, 1396182291,
   1695183700, 1986661051, 2177026350, 2456956037,
   2730485921, 2820302411, 3259730800, 3345764771,
   3516065817, 3600352804, 4094571909, 275423344,
   430227734, 506948616, 659060556, 883997877,
   958139571, 1322822218, 1537002063, 1747873779,
   1955562222, 2024104815, 2227730452, 2361852424,
   2428436474, 2756734187, 3204031479, 3329325298]

/-- Working state of the compression function (eight 32-bit words). -/
structure Hash8 where
  a : Nat
  b : Nat
  c : Nat
  d : Nat
  e : Nat
  f : Nat
  g : Nat
  h : Nat
deriving Repr, DecidableEq

/-- Initial hash value `H⁽⁰⁾`. -/
def sha256H0 : Hash8 :=
  ⟨1779033703, 3144134277, 1013904242, 2773480762,
   1359893119, 2600822924, 528734635, 1541459225⟩

/-- One round of the SHA-256 compression function. -/
def sha256Round (st : Hash8) (kw : Nat × Nat) : Hash8 :=
  let s1 := (rotr 6 st.e) ^^^ (rotr 11 st.e) ^^^ (rotr 25 st.e)
  let ch := (st.e &&& st.f) ^^^ ((st.e ^^^ (2 ^ 32 - 1)) &&& st.g)
  let t1 := w32 (st.h + s1 + ch + kw.1 + kw.2)
  let s0 := (rotr 2 st.a) ^^^ (rotr 13 st.a) ^^^ (rotr 22 st.a)
  let mj := (st.a &&& st.b) ^^^ (st.a &&& st.c) ^^^ (st.b &&& st.c)
  let t2 := w32 (s0 + mj)
  ⟨w32 (t1 + t2), st.a, st.b, st.c, w32 (st.d + t1), st.e, st.f, st.g⟩

/-- Big-endian packing of bytes into 32-bit words. -/
def bytesToWords : List Nat → List Nat
  | b0 :: b1 :: b2 :: b3 :: rest =>
    (((b0 * 256 + b1) * 256 + b2) * 256 + b3) :: bytesToWords rest
  | _ => []

/-- Extend a message schedule by one word. -/
def scheduleStep (ws : List Nat) : List Nat :=
  let t := ws.length
  let x2 := ws.getD (t - 2) 0
  let x7 := ws.getD (t - 7) 0
  let x15 := ws.getD (t - 15) 0
  let x16 := ws.getD (t - 16) 0
  let s1 := (rotr 17 x2) ^^^ (rotr 19 x2) ^^^ (x2 >>> 10)
  let s0 := (rotr 7 x15) ^^^ (rotr 18 x15) ^^^ (x15 >>> 3)
  ws ++ [w32 (s1 + x7 + s0 + x16)]

/-- Iterate the schedule extension. -/
def scheduleExtend : Nat → List Nat → List Nat
  | 0, ws => ws
  | n + 1, ws => scheduleExtend n (scheduleStep ws)

/-- Process one 64-byte chunk. -/
def sha256Chunk (H : Hash8) (chunk : List Nat) : Hash8 :=
  let W := scheduleExtend 48 (bytesToWords chunk)
  let st := (sha256K.zip W).foldl sha256Round H
  ⟨w32 (H.a + st.a), w32 (H.b + st.b), w32 (H.c + st.c), w32 (H.d + st.d),
   w32 (H.e + st.e), w32 (H.f + st.f), w32 (H.g + st.g), w32 (H.h + st.h)⟩

/-- The eight length bytes (big-endian, 64 bits) appended by padding. -/
def lengthBytes (n : Nat) : List Nat :=
  [n >>> 56 % 256, n >>> 48 % 256, n >>> 40 % 256, n >>> 32 % 256,
   n >>> 24 % 256, n >>> 16 % 256, n >>> 8 % 256, n % 256]

/-- SHA-256 padding: a `0x80` byte, zeros to 56 mod 64, then the bit length. -/
def padMessage (m : List Nat) : List Nat :=
  let L := m.length
  let k := (119 - L % 64) % 64
  m ++ 0x80 :: (List.replicate k 0 ++ lengthBytes (8 * L))

/-- Structural worker for `splitChunks`; the fuel argument only forces
termination and is always sufficient (each step drops 64 ≥ 1 bytes). -/
def splitChunksGo : Nat → List Nat → List (List Nat)
  | _, [] => []
  | 0, _ => []
  | fuel + 1, l => l.take 64 :: splitChunksGo fuel (l.drop 64)

/-- Split a byte list into 64-byte chunks. -/
def splitChunks (l : List Nat) : List (List Nat) := splitChunksGo l.length l

/-- SHA-256 of a byte string, as the final eight-word state. -/
def sha256Digest (m : List Nat) : Hash8 :=
  (splitChunks (padMessage m)).foldl sha256Chunk sha256H0

/-- The lowercase hex alphabet used by `hexdigest()`. -/
def hexAlphabet : List Char := "0123456789abcdef".data

/-- One hex digit. -/
def hexDigit (n : Nat) : Char := hexAlphabet.getD (n % 16) '0'

/-- Eight hex digits of a 32-bit word, most significant first. -/
def wordToHex (w : Nat) : List Char :=
  (List.range 8).map (fun i => hexDigit (w >>> (28 - 4 * i)))

/-- The 64 hex characters of a digest. -/
def digestHexChars (st : Hash8) : List Char :=
  ([st.a, st.b, st.c, st.d, st.e, st.f, st.g, st.h].map wordToHex).flatten

/-- Model of `hashlib.sha256(m).hexdigest()`. -/
def sha256Hex (m : List Nat) : String := String.mk (digestHexChars (sha256Digest m))

/-- Encoding of one character to UTF-8 bytes (`str.encode()`). -/
def utf8Bytes (c : Char) : List Nat :=
  let n := c.toNat
  if n < 0x80 then [n]
  else if n < 0x800 then
    [0xc0 ||| (n >>> 6), 0x80 ||| (n &&& 0x3f)]
  else if n < 0x10000 then
    [0xe0 ||| (n >>> 12), 0x80 ||| ((n >>> 6) &&& 0x3f), 0x80 ||| (n &&& 0x3f)]
  else
    [0xf0 ||| (n >>> 18), 0x80 ||| ((n >>> 12) &&& 0x3f),
     0x80 ||| ((n >>> 6) &&& 0x3f), 0x80 ||| (n &&& 0x3f)]

/-- Model of `s.encode()`: the UTF-8 bytes of a string. -/
def strBytes (s : String) : List Nat := s.data.flatMap utf8Bytes

/-! ## Signature and slug generation (`JobProcessor`) -/

/-- The title normalisation inside `JobProcessor.generate_signature`:
`re.sub(r"\s+", " ", job_title.strip().lower())`. -/
def normalizedTitle (job_title : String) : String :=
  collapseWs (strLower (pyStrip job_title))

/-- Embedding of `JobProcessor.generate_signature`: SHA-256 hex digest of
`"{company_id}:{normalized_title}"`. -/
def generate_signature (company_id : Nat) (job_title : String) : String :=
  sha256Hex (strBytes (toString company_id ++ ":" ++ normalizedTitle job_title))

/-- Is `c` a lowercase ASCII letter or digit (the class kept by
`re.sub(r"[^a-z0-9]+", "-", ·)` after lowering)? -/
def isSlugChar (c : Char) : Bool :=
  ('a' ≤ c && c ≤ 'z') || ('0' ≤ c && c ≤ '9')

/-- Worker for `re.sub(r"[^a-z0-9]+", "-", ·)`: the boolean records whether a
run of non-alphanumeric characters has already emitted its hyphen. -/
def slugCollapseAux : Bool → List Char → List Char
  | _, [] => []
  | inRun, c :: rest =>
    if isSlugChar c then c :: slugCollapseAux false rest
    else if inRun then slugCollapseAux true rest
    else '-' :: slugCollapseAux true rest

/-- Model of `str.strip("-")` on a character list. -/
def stripHyphens (l : List Char) : List Char :=
  ((l.dropWhile (· == '-')).reverse.dropWhile (· == '-')).reverse

/-- Embedding of `JobProcessor.generate_slug`: lower, replace non-alphanumeric runs with a
hyphen, strip hyphens, truncate to 100 characters. -/
def generate_slug (job_title : String) : String :=
  String.mk ((stripHyphens (slugCollapseAux false (strLower job_title).data)).take 100)

/-! ## Technology extractor (`TechnologyExtractor`)

The LLM collaborator (`self.llm.predict_messages`) is abstracted as an
`LlmOracle` holding the outcome of each of the two calls the extractor makes:
the raw response text on success, or an exception.  The technology cache
(`self._technology_cache`, a Python dict of lower-cased name → id) is the
assoc list `Cache` in insertion order; `load_technology_cache` is modelled as
the cache being given. -/

/-- Outcomes of the two LLM calls made while processing one job. -/
structure LlmOracle where
  extractResp : Except String String
  primaryResp : Except String String

/-- The in-memory technology cache: lower-cased name → id, in insertion
order. -/
abbrev Cache := List (String × Nat)

/-- Lookup (`dict.get`) on the cache. -/
def cacheGet (cache : Cache) (k : String) : Option Nat :=
  (cache.find? (fun p => p.1 == k)).map (·.2)

/-- Worker for the split on commas: accumulate the current (reversed) piece. -/
def splitCommaAux : List Char → List Char → List (List Char)
  | [], acc => [acc.reverse]
  | c :: rest, acc =>
    if c == ',' then acc.reverse :: splitCommaAux rest []
    else splitCommaAux rest (c :: acc)

/-- Model of `str.split(",")`. -/
def pySplitComma (s : String) : List String :=
  (splitCommaAux s.data []).map String.mk

/-- Response parsing inside `_extract_technology_names`: strip, return `[]`
when empty, else split on commas, strip items, and drop falsy (empty)
items. -/
def parseTechNames (resp : String) : List String :=
  let tech_text := pyStrip resp
  if tech_text == "" then []
  else ((pySplitComma tech_text).map pyStrip).filter (fun n => n ≠ "")

/-- Embedding of `TechnologyExtractor._extract_technology_names`: on any exception from
the LLM call the `except` branch returns `[]`. -/
def extractTechnologyNames (llm : LlmOracle) : List String :=
  match llm.extractResp with
  | .error _ => []
  | .ok content => parseTechNames content

/-- Insertion into `matched_ids` (`set.add`) followed by `list(...)`: Python set iteration order is
modelled as insertion order. -/
def addUnique (l : List Nat) (x : Nat) : List Nat :=
  if x ∈ l then l else l ++ [x]

/-- The fallback loop of `_match_technologies`: the first cached entry with
`name.lower() in db_name or db_name in name.lower()`. -/
def substringScan (cache : Cache) (nl : String) : Option Nat :=
  (cache.find? (fun p => pySubstr nl p.1 || pySubstr p.1 nl)).map (·.2)

/-- One iteration of the loop in `_match_technologies`.  Note `if tech_id:`
is Python truthiness: a cached id `0` falls through to the substring scan. -/
def matchStep (cache : Cache) (acc : List Nat) (name : String) : List Nat :=
  let nl := strLower name
  match cacheGet cache nl with
  | some tech_id =>
    if tech_id ≠ 0 then addUnique acc tech_id
    else
      match substringScan cache nl with
      | some db_id => addUnique acc db_id
      | none => acc
  | none =>
    match substringScan cache nl with
    | some db_id => addUnique acc db_id
    | none => acc

/-- Embedding of `TechnologyExtractor._match_technologies`. -/
def matchTechnologies (cache : Cache) (tech_names : List String) : List Nat :=
  tech_names.foldl (matchStep cache) []

/-- Embedding of `TechnologyExtractor._identify_primary_technology`.  The reverse lookup
building `tech_names` only feeds the prompt, which the oracle abstracts; on
an LLM exception the `except` branch returns `tech_ids[0]`.  The answer is
matched against **every** cache entry (`name.lower() == primary.lower() or
name.lower() in primary.lower()`), not just the candidates. -/
def identifyPrimary (cache : Cache) (llm : LlmOracle) (tech_ids : List Nat) : Option Nat :=
  match tech_ids with
  | [] => none
  | [x] => some x
  | x :: _ :: _ =>
    match llm.primaryResp with
    | .error _ => some x
    | .ok content =>
      let primary_tech := pyStrip content
      match cache.find? (fun p =>
          strLower p.1 == strLower primary_tech ||
          pySubstr (strLower p.1) (strLower primary_tech)) with
      | some e => some e.2
      | none => some x

/-- Embedding of `TechnologyExtractor.extract_technologies`. -/
def extractTechnologies (cache : Cache) (llm : LlmOracle)
    (job_title job_description : String) : List (Nat × Bool) :=
  let tech_names := extractTechnologyNames llm
  if tech_names.isEmpty then []
  else
    let matched_techs := matchTechnologies cache tech_names
    if matched_techs.isEmpty then []
    else
      let primary_tech_id := identifyPrimary cache llm matched_techs
      matched_techs.map (fun tech_id => (tech_id, primary_tech_id == some tech_id))

/-! ## Persisted records and database state -/

/-- A persisted job row (`models/job.py`); timestamps are modelled as `Nat`
ticks. -/
structure Job where
  id : Nat
  company_id : Nat
  title : String
  slug : String
  description : String
  requirements : String
  preferred_skills : Option String
  experience_level : String
  employment_type : String
  location : Option String
  work_mode : String
  application_url : Option String
  job_function : Option String
  posted_at : Nat
  first_seen_at : Nat
  last_seen_at : Nat
  is_active : Bool
  signature : String
deriving Repr, DecidableEq

/-- A persisted job–technology link row (`models/job_technology.py`). -/
structure JobTechnology where
  job_id : Nat
  technology_id : Nat
  is_primary : Bool
deriving Repr, DecidableEq

/-- The persistence store: job rows and link rows in insertion order, plus
the id the next INSERT will receive. -/
structure PState where
  jobs : List Job
  links : List JobTechnology
  nextJobId : Nat
deriving Repr, DecidableEq

/-- The `job_data` dict consumed by `process_job`; `none` stands for an
absent key, so `job_data.get(k, default)` is `getD`. -/
structure JobData where
  title : Option String
  description : Option String
  requirements : Option String
  preferred_skills : Option String
  experience_level : Option String
  employment_type : Option String
  location : Option String
  work_mode : Option String
  application_url : Option String
  job_function : Option String
  posted_at : Option Nat
deriving Repr

/-- Apply `f` to the first element satisfying `p` (how a SQLAlchemy
field-update lands on the row a query found). -/
def updateFirst (p : α → Bool) (f : α → α) : List α → List α
  | [] => []
  | x :: xs => if p x then f x :: xs else x :: updateFirst p f xs

/-- Embedding of `BaseAsyncRepository.get` for jobs (primary-key lookup). -/
def getJob (s : PState) (id : Nat) : Option Job :=
  s.jobs.find? (fun j => j.id == id)

/-- Embedding of `JobAsyncRepository.get_by_signature`. -/
def getBySignature (s : PState) (sig : String) : Option Job :=
  s.jobs.find? (fun j => j.signature == sig)

/-- Embedding of `JobAsyncRepository.update_last_seen`: load by id; if absent return
`None`; else set only `last_seen_at` to now and commit. -/
def updateLastSeen (s : PState) (id : Nat) (now : Nat) : Option Job × PState :=
  match getJob s id with
  | none => (none, s)
  | some j =>
    let jobs' := updateFirst (fun x => x.id == id)
      (fun x => { x with last_seen_at := now }) s.jobs
    (some { j with last_seen_at := now }, { s with jobs := jobs' })

/-- Embedding of `JobAsyncRepository.add_technology`: `None` when the job does not exist;
update only `is_primary` when the `(job_id, technology_id)` link exists;
otherwise insert a new link row. -/
def addTechnology (s : PState) (job_id technology_id : Nat) (is_primary : Bool) :
    Option JobTechnology × PState :=
  match getJob s job_id with
  | none => (none, s)
  | some _ =>
    match s.links.find? (fun l => l.job_id == job_id && l.technology_id == technology_id) with
    | some l =>
      let links' := updateFirst
        (fun x => x.job_id == job_id && x.technology_id == technology_id)
        (fun x => { x with is_primary := is_primary }) s.links
      (some { l with is_primary := is_primary }, { s with links := links' })
    | none =>
      let job_tech : JobTechnology := ⟨job_id, technology_id, is_primary⟩
      (some job_tech, { s with links := s.links ++ [job_tech] })

/-- Embedding of `BaseAsyncRepository.get_multi(filters={company_id, is_active: True})` as
called by `mark_inactive_jobs`: both filter fields exist on the model, no
sort is requested, and the **default** pagination `skip=0, limit=100` is
applied. -/
def getMultiActive (s : PState) (company_id : Nat) : List Job :=
  (((s.jobs.filter (fun j => j.company_id == company_id && j.is_active == true)).drop 0).take 100)

/-- Embedding of `BaseAsyncRepository.update(job_id, {"is_active": False})`: load by id,
set the field, commit; missing rows are a silent no-op returning `None`. -/
def updateIsActive (s : PState) (id : Nat) (b : Bool) : PState :=
  let jobs' := updateFirst (fun j => j.id == id)
    (fun j => { j with is_active := b }) s.jobs
  { s with jobs := jobs' }

/-! ## Job upsert engine (`JobProcessor`) -/

/-- Embedding of `JobProcessor.mark_inactive_jobs`: load the company's active jobs via
`get_multi`, collect the ids not in `active_job_ids`, flip each to inactive,
and return how many were flipped. -/
def markInactiveJobs (s : PState) (company_id : Nat) (active_job_ids : List Nat) :
    Nat × PState :=
  let all_active_jobs := getMultiActive s company_id
  let inactive_job_ids :=
    (all_active_jobs.filter (fun job => !(active_job_ids.contains job.id))).map (·.id)
  let s' := inactive_job_ids.foldl (fun st job_id => updateIsActive st job_id false) s
  (inactive_job_ids.length, s')

/-- The link-writing loop of `_process_technologies`.  When `linkFails` is
set, the first `add_technology` commit raises; the surrounding `except`
swallows it, so the loop stops and the state so far is kept. -/
def addLinksLoop (linkFails : Bool) (s : PState) (job_id : Nat) :
    List (Nat × Bool) → PState
  | [] => s
  | (tech_id, is_primary) :: rest =>
    if linkFails then s
    else addLinksLoop linkFails (addTechnology s job_id tech_id is_primary).2 job_id rest

/-- Embedding of `JobProcessor._process_technologies`: extract, return early when nothing
was extracted, else store each `(technology_id, is_primary)` pair; every
failure is caught and logged, never re-raised. -/
def processTechnologies (cache : Cache) (llm : LlmOracle) (linkFails : Bool)
    (s : PState) (job_id : Nat) (job_title job_description : String) : PState :=
  let technologies := extractTechnologies cache llm job_title job_description
  if technologies.isEmpty then s
  else addLinksLoop linkFails s job_id technologies

/-- The `job_dict` built by `process_job` for a fresh posting, as the row
`create` inserts: defaults for omitted optional fields, `is_active = true`,
and the id the store assigns (`s.nextJobId`). -/
def mkNewJob (now : Nat) (s : PState) (company_id : Nat) (jd : JobData) : Job :=
  let title := jd.title.getD ""
  { id := s.nextJobId, company_id := company_id, title := title,
    slug := generate_slug title, description := jd.description.getD "",
    requirements := jd.requirements.getD "",
    preferred_skills := jd.preferred_skills,
    experience_level := jd.experience_level.getD "Not specified",
    employment_type := jd.employment_type.getD "Full-time",
    location := jd.location,
    work_mode := jd.work_mode.getD "Not specified",
    application_url := jd.application_url,
    job_function := jd.job_function,
    posted_at := jd.posted_at.getD now,
    first_seen_at := now, last_seen_at := now,
    is_active := true, signature := generate_signature company_id title }

/-- Embedding of `JobProcessor.process_job`.  Here `race` injects the row a concurrent writer
commits between `get_by_signature` and `create`: with it present, `create`
raises the unique-signature `IntegrityError`, which the blanket
`except Exception` turns into a `None` return.  The function never raises:
every failure path yields `(none, state-at-failure)`. -/
def processJob (cache : Cache) (llm : LlmOracle) (race : Option Job)
    (linkFails : Bool) (now : Nat) (s : PState) (company_id : Nat)
    (jd : JobData) : Option Nat × PState :=
  if pyFalsyStr jd.title || pyFalsyStr jd.description then (none, s)
  else
    let title := jd.title.getD ""
    let description := jd.description.getD ""
    let signature := generate_signature company_id title
    match getBySignature s signature with
    | some existing_job =>
      (some existing_job.id, (updateLastSeen s existing_job.id now).2)
    | none =>
      let s0 :=
        match race with
        | some rj => { s with jobs := s.jobs ++ [rj], nextJobId := max s.nextJobId (rj.id + 1) }
        | none => s
      if s0.jobs.any (fun j => j.signature == signature) then (none, s0)
      else
        let newJob : Job := mkNewJob now s0 company_id jd
        let s1 := { s0 with jobs := s0.jobs ++ [newJob], nextJobId := s0.nextJobId + 1 }
        let s2 := processTechnologies cache llm linkFails s1 newJob.id title description
        (some newJob.id, s2)

/-! ## Historical signature ledger (`manage_past_jobs_signatures`) -/

/-- The shape persisted to today's `historical_jobs.json`. -/
structure LedgerFile where
  signatures : Finset String
  count : Nat
  previous_day_count : Nat
  new_unique_count : Nat
  duplicates_count : Nat
deriving DecidableEq

/-- The shape persisted to `duplicated_signatures.json`. -/
structure DuplicatesFile where
  duplicated_signatures : Finset String
  count : Nat
deriving DecidableEq

/-- Embedding of `manage_past_jobs_signatures` of `scripts/scraper/job_stage_4.py` as a
pure reconciliation: the first component is today's ledger file, the second
the side report, present exactly when the duplicate set is non-empty.  A
missing (or unreadable) previous-day file leaves `previous_signatures`
empty, modelled by `previousLedger = none`. -/
def managePastJobsSignatures (previousLedger : Option (Finset String))
    (combined_signatures : Finset String) : LedgerFile × Option DuplicatesFile :=
  let previous_signatures := previousLedger.getD ∅
  let duplicated_signatures := combined_signatures ∩ previous_signatures
  let unique_current_signatures := combined_signatures \ duplicated_signatures
  let all_unique_signatures := previous_signatures ∪ unique_current_signatures
  (⟨all_unique_signatures, all_unique_signatures.card, previous_signatures.card,
    unique_current_signatures.card, duplicated_signatures.card⟩,
   if duplicated_signatures.Nonempty then
     some ⟨duplicated_signatures, duplicated_signatures.card⟩
   else none)

/-! ## Reference definition from the spec's words, and concrete fixtures -/

/-- The matching loop exactly as §4.2 of the spec words it (refinement
reference for C6): "for each candidate name, attempt case-insensitive exact
match against the cache; if absent, perform a symmetric substring test …
against every cached entry and take the first match found".  Unlike the
source's `matchStep`, the exact hit is taken unconditionally. -/
def matchStepSpec (cache : Cache) (acc : List Nat) (name : String) : List Nat :=
  let nl := strLower name
  match cacheGet cache nl with
  | some tech_id => addUnique acc tech_id
  | none =>
    match substringScan cache nl with
    | some db_id => addUnique acc db_id
    | none => acc

/-- Embedding of `_match_technologies` as the spec words it (refinement reference). -/
def matchTechnologiesSpec (cache : Cache) (tech_names : List String) : List Nat :=
  tech_names.foldl (matchStepSpec cache) []

/-- A job record with neutral field values, used to build concrete states. -/
def baseJob : Job :=
  { id := 0, company_id := 0, title := "", slug := "", description := "",
    requirements := "", preferred_skills := none, experience_level := "",
    employment_type := "", location := none, work_mode := "",
    application_url := none, job_function := none, posted_at := 0,
    first_seen_at := 0, last_seen_at := 0, is_active := true, signature := "" }

/-- A `job_data` dict holding only a title and a description. -/
def mkJobData (t d : Option String) : JobData :=
  ⟨t, d, none, none, none, none, none, none, none, none, none⟩

/-- Taxonomy cache used by the C5 scenarios. -/
def c5Cache : Cache := [("python", 1), ("docker", 2), ("go", 3)]

/-- LLM outcomes whose disambiguation answer maps to the cached entry
`"go"`, which is not among the matched candidates. -/
def c5LlmNonCandidate : LlmOracle := ⟨Except.ok "Python, Docker", Except.ok "Go"⟩

/-- LLM outcomes whose disambiguation answer maps to no cached entry. -/
def c5LlmUnmatched : LlmOracle := ⟨Except.ok "Python, Docker", Except.ok "Rust"⟩

/-- LLM outcomes extracting a single matched technology. -/
def c5LlmSingle : LlmOracle := ⟨Except.ok "Python", Except.ok "Python"⟩

/-- A cache whose second entry carries id 0 (C6): its key `"python"` is hit
exactly, but Python's `if tech_id:` treats the id 0 as falsy. -/
def c6Cache : Cache := [("py", 5), ("python", 0)]

/-- An LLM that fails both calls (the pipeline must still make progress). -/
def llmQuiet : LlmOracle := ⟨Except.error "down", Except.error "down"⟩

/-- An LLM extracting `"Python"` and electing it primary. -/
def llmPython : LlmOracle := ⟨Except.ok "Python", Except.ok "Python"⟩

/-- Stored job for the C3 scenario: signature of company 7 and title
`"Backend Engineer"`, with its original description. -/
def c3Job : Job :=
  { baseJob with
    id := 42, company_id := 7, title := "Backend Engineer",
    description := "original description",
    signature := generate_signature 7 "Backend Engineer", last_seen_at := 3 }

/-- Store holding only `c3Job`. -/
def c3State : PState := ⟨[c3Job], [], 43⟩

/-- Incoming posting for C3: same company/title, different description. -/
def c3JobData : JobData :=
  mkJobData (some "Backend Engineer") (some "changed description")

/-- The row a concurrent writer commits in the C4 race: same signature as
the posting being processed. -/
def c4Race : Job :=
  { baseJob with
    id := 77, company_id := 1, title := "X", description := "D",
    signature := generate_signature 1 "X" }

/-- Incoming posting for C4. -/
def c4JobData : JobData := mkJobData (some "X") (some "D")

/-- Store for the C7 witness: one job and one link. -/
def c7State : PState :=
  ⟨[{ baseJob with id := 1, company_id := 1 }], [⟨1, 9, false⟩], 2⟩

/-- A list of 101 active jobs of company 1, ids 0–100 (C8 counterexample: more rows
than `get_multi`'s default `limit=100`). -/
def c8Jobs : List Job :=
  (List.range 101).map (fun i => { baseJob with id := i, company_id := 1 })

/-- Store holding `c8Jobs`. -/
def c8State : PState := ⟨c8Jobs, [], 101⟩

/-- Three active jobs of company 1 with ids 10, 11, 12 (C8 witness, the
spec's own example). -/
def c8SmallState : PState :=
  ⟨[{ baseJob with id := 10, company_id := 1 },
    { baseJob with id := 11, company_id := 1 },
    { baseJob with id := 12, company_id := 1 }], [], 13⟩

/-! # Helper lemmas -/

theorem hexDigit_mem (n : Nat) : hexDigit n ∈ hexAlphabet := by
  have h : n % 16 < 16 := Nat.mod_lt _ (by norm_num)
  unfold hexDigit
  revert h
  generalize n % 16 = k
  intro h
  interval_cases k <;> decide

theorem digestHexChars_length (st : Hash8) : (digestHexChars st).length = 64 := by
  simp [digestHexChars, wordToHex]

theorem digestHexChars_mem (st : Hash8) {c : Char} (hc : c ∈ digestHexChars st) :
    c ∈ hexAlphabet := by
  simp only [digestHexChars, List.mem_flatten, List.mem_map, wordToHex] at hc
  obtain ⟨l, ⟨w, _, rfl⟩, hcl⟩ := hc
  obtain ⟨i, _, rfl⟩ := List.mem_map.mp hcl
  exact hexDigit_mem _

/-! # Claim theorems -/

/-- C1 (ledger reconciliation): for every pair of previous-day /
current-day signature sets, `manage_past_jobs_signatures` persists today's
ledger with `signatures = yesterday ∪ today` (equivalently
`yesterday ∪ (today − duplicates)` with `duplicates = today ∩ yesterday`),
`count = |all_unique|`, `previous_day_count = |yesterday|`,
`new_unique_count = |today − yesterday|`, `duplicates_count = |duplicates|`;
an absent previous-day ledger acts as the empty set, and the duplicates side
report exists exactly when `duplicates` is non-empty and then carries the
duplicate set and its size. -/
theorem C1_ledger_reconciliation (previousLedger : Option (Finset String))
    (today : Finset String) :
    (managePastJobsSignatures previousLedger today).1.signatures
        = previousLedger.getD ∅ ∪ today ∧
    (managePastJobsSignatures previousLedger today).1.count
        = (previousLedger.getD ∅ ∪ today).card ∧
    (managePastJobsSignatures previousLedger today).1.previous_day_count
        = (previousLedger.getD ∅).card ∧
    (managePastJobsSignatures previousLedger today).1.new_unique_count
        = (today \ previousLedger.getD ∅).card ∧
    (managePastJobsSignatures previousLedger today).1.duplicates_count
        = (today ∩ previousLedger.getD ∅).card ∧
    ((managePastJobsSignatures previousLedger today).2.isSome
        ↔ (today ∩ previousLedger.getD ∅).Nonempty) ∧
    (managePastJobsSignatures previousLedger today).2.elim True
      (fun rep => rep.duplicated_signatures = today ∩ previousLedger.getD ∅ ∧
                  rep.count = (today ∩ previousLedger.getD ∅).card) ∧
    managePastJobsSignatures none today = managePastJobsSignatures (some ∅) today := by
  have hsd : today \ (today ∩ previousLedger.getD ∅) = today \ previousLedger.getD ∅ := by
    ext x; simp
  have hun : previousLedger.getD ∅ ∪ (today \ previousLedger.getD ∅)
      = previousLedger.getD ∅ ∪ today := Finset.union_sdiff_self_eq_union
  refine ⟨?_, ?_, rfl, ?_, rfl, ?_, ?_, rfl⟩
  · simp only [managePastJobsSignatures]
    rw [hsd, hun]
  · simp only [managePastJobsSignatures]
    rw [hsd, hun]
  · simp only [managePastJobsSignatures]
    rw [hsd]
  · simp only [managePastJobsSignatures]
    by_cases h : (today ∩ previousLedger.getD ∅).Nonempty <;> simp [h]
  · simp only [managePastJobsSignatures]
    by_cases h : (today ∩ previousLedger.getD ∅).Nonempty <;> simp [h]

/-- C2 (signature stability): `generate_signature` depends on its title
argument only through the normalisation `re.sub(r"\s+", " ",
title.strip().lower())` — titles with equal normal forms give equal
signatures for every company id — and its value is always a 64-character
string over the lowercase hex alphabet. -/
theorem C2_signature_stability (company_id : Nat) (t₁ t₂ : String)
    (h : normalizedTitle t₁ = normalizedTitle t₂) :
    generate_signature company_id t₁ = generate_signature company_id t₂ ∧
    (generate_signature company_id t₁).length = 64 ∧
    ∀ c ∈ (generate_signature company_id t₁).data, c ∈ hexAlphabet := by
  refine ⟨?_, ?_, ?_⟩
  · unfold generate_signature
    rw [h]
  · simp only [generate_signature, sha256Hex, String.length]
    exact digestHexChars_length _
  · intro c hc
    simp only [generate_signature, sha256Hex] at hc
    exact digestHexChars_mem _ hc

/-- Witness for C2 at the spec's example pair
`(1, "Backend Engineer")` / `(1, "  backend   engineer ")`. -/
theorem C2_signature_stability_witness :
    normalizedTitle "Backend Engineer" = normalizedTitle "  backend   engineer " ∧
    (generate_signature 1 "Backend Engineer"
        = generate_signature 1 "  backend   engineer " ∧
     (generate_signature 1 "Backend Engineer").length = 64 ∧
     ∀ c ∈ (generate_signature 1 "Backend Engineer").data, c ∈ hexAlphabet) :=
  have h : normalizedTitle "Backend Engineer" = normalizedTitle "  backend   engineer " := by
    decide
  ⟨h, C2_signature_stability 1 "Backend Engineer" "  backend   engineer " h⟩

/-- C9 (extraction-failure degradation): when the extraction LLM call
raises, `_extract_technology_names` returns the empty list and
`extract_technologies` returns the empty list; the failure is absorbed, not
re-raised. -/
theorem C9_extraction_failure_degrades (cache : Cache) (llm : LlmOracle) (e : String)
    (job_title job_description : String) (h : llm.extractResp = Except.error e) :
    extractTechnologyNames llm = [] ∧
    extractTechnologies cache llm job_title job_description = [] := by
  constructor
  · simp [extractTechnologyNames, h]
  · simp [extractTechnologies, extractTechnologyNames, h]

/-- Witness for C9: a concrete failing extractor call on a one-entry cache. -/
theorem C9_extraction_failure_degrades_witness :
    extractTechnologyNames ⟨Except.error "timeout", Except.error "timeout"⟩ = [] ∧
    extractTechnologies [("python", 1)] ⟨Except.error "timeout", Except.error "timeout"⟩
      "Backend Engineer" "desc" = [] :=
  C9_extraction_failure_degrades [("python", 1)]
    ⟨Except.error "timeout", Except.error "timeout"⟩ "timeout"
    "Backend Engineer" "desc" rfl

theorem addUnique_nodup {l : List Nat} (h : l.Nodup) (x : Nat) :
    (addUnique l x).Nodup := by
  unfold addUnique
  split
  · exact h
  · next hx => simp [List.nodup_append, h, hx]

theorem matchStep_nodup (cache : Cache) {acc : List Nat} (h : acc.Nodup)
    (name : String) : (matchStep cache acc name).Nodup := by
  simp only [matchStep]
  cases cacheGet cache (strLower name) with
  | none =>
    cases substringScan cache (strLower name) with
    | none => exact h
    | some did => exact addUnique_nodup h did
  | some tid =>
    by_cases ht : tid ≠ 0
    · simpa [ht] using addUnique_nodup h tid
    · simp only [ht, if_false]
      cases substringScan cache (strLower name) with
      | none => exact h
      | some did => exact addUnique_nodup h did

theorem foldl_matchStep_nodup (cache : Cache) :
    ∀ (tech_names : List String) (acc : List Nat), acc.Nodup →
      (tech_names.foldl (matchStep cache) acc).Nodup
  | [], _, h => h
  | n :: ns, acc, h =>
    foldl_matchStep_nodup cache ns _ (matchStep_nodup cache h n)

theorem matchTechnologies_nodup (cache : Cache) (tech_names : List String) :
    (matchTechnologies cache tech_names).Nodup :=
  foldl_matchStep_nodup cache tech_names [] List.nodup_nil

theorem cacheGet_mem {cache : Cache} {k : String} {tid : Nat}
    (h : cacheGet cache k = some tid) : ∃ p ∈ cache, p.2 = tid := by
  unfold cacheGet at h
  obtain ⟨p, hf, hp⟩ := Option.map_eq_some'.mp h
  exact ⟨p, List.mem_of_find?_eq_some hf, hp⟩

theorem matchStep_eq_spec (cache : Cache) (h0 : ∀ p ∈ cache, p.2 ≠ 0)
    (acc : List Nat) (name : String) :
    matchStep cache acc name = matchStepSpec cache acc name := by
  simp only [matchStep, matchStepSpec]
  cases hc : cacheGet cache (strLower name) with
  | none => rfl
  | some tid =>
    obtain ⟨p, hp, hpe⟩ := cacheGet_mem hc
    have : tid ≠ 0 := hpe ▸ h0 p hp
    simp [this]

theorem foldl_matchStep_eq_spec (cache : Cache) (h0 : ∀ p ∈ cache, p.2 ≠ 0) :
    ∀ (tech_names : List String) (acc : List Nat),
      tech_names.foldl (matchStep cache) acc
        = tech_names.foldl (matchStepSpec cache) acc
  | [], _ => rfl
  | n :: ns, acc => by
    rw [List.foldl_cons, List.foldl_cons, matchStep_eq_spec cache h0 acc n]
    exact foldl_matchStep_eq_spec cache h0 ns _

theorem identifyPrimary_isSome (cache : Cache) (llm : LlmOracle)
    {tech_ids : List Nat} (h : tech_ids ≠ []) :
    ∃ p, identifyPrimary cache llm tech_ids = some p := by
  match tech_ids with
  | [] => exact absurd rfl h
  | [x] => exact ⟨x, rfl⟩
  | x :: y :: rest =>
    simp only [identifyPrimary]
    cases llm.primaryResp with
    | error _ => exact ⟨x, rfl⟩
    | ok content =>
      cases hf : List.find? (fun p =>
          strLower p.1 == strLower (pyStrip content)
            || pySubstr (strLower p.1) (strLower (pyStrip content))) cache with
      | none => exact ⟨x, by simp [hf]⟩
      | some e => exact ⟨e.2, by simp [hf]⟩

theorem map_mark_first (x : Nat) (l : List Nat) (hx : x ∉ l) :
    (x :: l).map (fun t => (t, some x == some t))
      = (x, true) :: l.map (fun t => (t, false)) := by
  rw [List.map_cons]
  refine congrArg₂ List.cons (by simp) (List.map_congr_left fun t ht => ?_)
  have hxt : x ≠ t := fun he => hx (he ▸ ht)
  simp [hxt]

theorem nodup_countP_eq_le_one {l : List Nat} (h : l.Nodup) (p : Nat) :
    l.countP (fun t => p == t) ≤ 1 := by
  induction l with
  | nil => simp
  | cons a as ih =>
    rcases List.nodup_cons.mp h with ⟨ha, has⟩
    rw [List.countP_cons]
    by_cases hpa : p = a
    · subst hpa
      have hz : as.countP (fun t => p == t) = 0 := by
        rw [List.countP_eq_zero]
        intro t ht hc
        exact ha ((beq_iff_eq.mp hc : p = t) ▸ ht)
      simp [hz]
    · have hb : (p == a) = false := beq_eq_false_iff_ne.mpr hpa
      simpa [hb] using ih has

/-- C6 (matching semantics, amended): provided every cached technology id
is non-zero, `_match_technologies` behaves exactly as the spec describes —
case-insensitive exact lookup first, then the symmetric-substring scan taking
the first matching cache entry, unmatched candidates silently dropped.  (The
amendment is forced by Python's `if tech_id:`: a cached id `0` makes the
exact hit fall through to the scan, see `C6_counterexample`.) -/
theorem C6_matching_semantics (cache : Cache) (tech_names : List String)
    (h0 : ∀ p ∈ cache, p.2 ≠ 0) :
    matchTechnologies cache tech_names = matchTechnologiesSpec cache tech_names :=
  foldl_matchStep_eq_spec cache h0 tech_names []

/-- Counterexample to C6 as stated: with cache `[("py", 5), ("python", 0)]`
the candidate `"python"` hits the exact entry `("python", 0)`, but the code
resolves it to `5` via the substring scan (first entry `"py"`), while the
spec's exact-lookup-first description resolves it to `0`. -/
theorem C6_counterexample :
    matchTechnologies c6Cache ["python"] = [5] ∧
    matchTechnologiesSpec c6Cache ["python"] = [0] ∧
    matchTechnologies c6Cache ["python"] ≠ matchTechnologiesSpec c6Cache ["python"] := by
  decide

/-- Witness for C6 on a concrete all-nonzero cache: the exact hit resolves
`"Python"`, and `"Kubernetes"` is dropped without error. -/
theorem C6_matching_semantics_witness :
    matchTechnologies [("python", 1), ("docker", 2)] ["Python", "Kubernetes"]
      = matchTechnologiesSpec [("python", 1), ("docker", 2)] ["Python", "Kubernetes"] :=
  C6_matching_semantics [("python", 1), ("docker", 2)] ["Python", "Kubernetes"]
    (by decide)

/-- C5 (primary election, amended): `extract_technologies` marks **at
most** one returned id as primary; with a single matched id that id is
primary, and with multiple ids, when the disambiguation answer maps to **no
cached name at all**, the first id in matched order becomes primary.  (The
original "exactly one" and "does not map to any candidate id" fail when the
answer maps to a cached entry outside the candidates, see
`C5_counterexample`.) -/
theorem C5_primary_election (cache : Cache) (llm : LlmOracle)
    (job_title job_description : String) :
    (extractTechnologies cache llm job_title job_description).countP (fun r => r.2) ≤ 1 ∧
    (∀ x : Nat, matchTechnologies cache (extractTechnologyNames llm) = [x] →
      extractTechnologies cache llm job_title job_description = [(x, true)]) ∧
    (∀ (x y : Nat) (rest : List Nat) (resp : String),
      matchTechnologies cache (extractTechnologyNames llm) = x :: y :: rest →
      llm.primaryResp = Except.ok resp →
      cache.find? (fun p => strLower p.1 == strLower (pyStrip resp)
          || pySubstr (strLower p.1) (strLower (pyStrip resp))) = none →
      extractTechnologies cache llm job_title job_description
        = (x, true) :: (y :: rest).map (fun t => (t, false))) := by
  refine ⟨?_, ?_, ?_⟩
  · simp only [extractTechnologies]
    cases hn : (extractTechnologyNames llm).isEmpty
    · simp only [Bool.false_eq_true, if_false]
      cases hm : (matchTechnologies cache (extractTechnologyNames llm)).isEmpty
      · simp only [Bool.false_eq_true, if_false]
        have hne : matchTechnologies cache (extractTechnologyNames llm) ≠ [] := by
          intro h; rw [h] at hm; simp at hm
        obtain ⟨p, hp⟩ := identifyPrimary_isSome cache llm hne
        rw [hp, List.countP_map]
        have hcong : (matchTechnologies cache (extractTechnologyNames llm)).countP
            ((fun r : Nat × Bool => r.2) ∘ (fun tech_id => (tech_id, some p == some tech_id)))
            = (matchTechnologies cache (extractTechnologyNames llm)).countP
                (fun t => p == t) := by
          exact List.countP_congr (fun t _ => by simp)
        rw [hcong]
        exact nodup_countP_eq_le_one
          (matchTechnologies_nodup cache (extractTechnologyNames llm)) p
      · simp
    · simp
  · intro x hx
    have hne : extractTechnologyNames llm ≠ [] := by
      intro h0
      rw [h0] at hx
      exact absurd hx (by simp [matchTechnologies])
    simp only [extractTechnologies, List.isEmpty_eq_false.mpr hne,
      Bool.false_eq_true, if_false, hx]
    simp [identifyPrimary]
  · intro x y rest resp hm hp hf
    have hne : extractTechnologyNames llm ≠ [] := by
      intro h0
      rw [h0] at hm
      exact absurd hm (by simp [matchTechnologies])
    have hnodup := matchTechnologies_nodup cache (extractTechnologyNames llm)
    rw [hm] at hnodup
    have hxmem : x ∉ y :: rest := (List.nodup_cons.mp hnodup).1
    simp only [extractTechnologies, List.isEmpty_eq_false.mpr hne,
      Bool.false_eq_true, if_false, hm]
    simp only [identifyPrimary, hp, hf, List.isEmpty_cons,
      Bool.false_eq_true, if_false]
    exact map_mark_first x (y :: rest) hxmem

/-- Counterexample to C5 as stated: candidates resolve to `[1, 2]`, the
disambiguation answer `"Go"` maps to the cached entry `("go", 3)` — a
non-candidate — so the returned pairs are `[(1, false), (2, false)]`: two ids
returned and **zero** (not exactly one) marked primary, and the first id in
matched order is not elected. -/
theorem C5_counterexample :
    extractTechnologies c5Cache c5LlmNonCandidate "Backend Engineer" "desc"
      = [(1, false), (2, false)] ∧
    (extractTechnologies c5Cache c5LlmNonCandidate "Backend Engineer" "desc").countP
      (fun r => r.2) = 0 := by
  decide

/-- Witness for C5: the single-candidate election and the
unmatched-answer default at concrete inputs. -/
theorem C5_primary_election_witness :
    (extractTechnologies c5Cache c5LlmUnmatched "T" "D").countP (fun r => r.2) ≤ 1 ∧
    extractTechnologies c5Cache c5LlmSingle "T" "D" = [(1, true)] ∧
    extractTechnologies c5Cache c5LlmUnmatched "T" "D" = [(1, true), (2, false)] := by
  refine ⟨(C5_primary_election c5Cache c5LlmUnmatched "T" "D").1, ?_, ?_⟩
  · exact (C5_primary_election c5Cache c5LlmSingle "T" "D").2.1 1 (by decide)
  · exact (C5_primary_election c5Cache c5LlmUnmatched "T" "D").2.2 1 2 [] "Rust"
      (by decide) rfl (by decide)

theorem updateFirst_length (p : α → Bool) (f : α → α) :
    ∀ l : List α, (updateFirst p f l).length = l.length
  | [] => rfl
  | x :: xs => by
    simp only [updateFirst]
    split
    · simp
    · simp [updateFirst_length p f xs]

theorem updateFirst_getElem? (p : α → Bool) (f : α → α) :
    ∀ (l : List α) (k : Nat),
      (updateFirst p f l)[k]? = l[k]? ∨
      ∃ x, l[k]? = some x ∧ p x = true ∧ (updateFirst p f l)[k]? = some (f x)
  | [], _ => Or.inl rfl
  | x :: xs, k => by
    simp only [updateFirst]
    split
    · next hpx =>
      cases k with
      | zero => exact Or.inr ⟨x, by simp, hpx, by simp⟩
      | succ n => simp
    · cases k with
      | zero => simp
      | succ n => simpa using updateFirst_getElem? p f xs n

theorem find?_updateFirst (p : α → Bool) (f : α → α)
    (hpf : ∀ x, p (f x) = p x) :
    ∀ l : List α, (updateFirst p f l).find? p = (l.find? p).map f
  | [] => rfl
  | x :: xs => by
    by_cases hpx : p x = true
    · simp [updateFirst, List.find?_cons, hpx, hpf]
    · have hpx' : p x = false := by revert hpx; cases p x <;> simp
      simp [updateFirst, List.find?_cons, hpx', find?_updateFirst p f hpf xs]

theorem updateFirst_updateFirst (p : α → Bool) (f : α → α)
    (hff : ∀ x, f (f x) = f x) (hpf : ∀ x, p (f x) = p x) :
    ∀ l : List α, updateFirst p f (updateFirst p f l) = updateFirst p f l
  | [] => rfl
  | x :: xs => by
    by_cases hpx : p x = true
    · simp [updateFirst, hpx, hpf, hff]
    · have hpx' : p x = false := by revert hpx; cases p x <;> simp
      simp [updateFirst, hpx', updateFirst_updateFirst p f hff hpf xs]

theorem updateFirst_append_of_none (p : α → Bool) (f : α → α) :
    ∀ (l₁ l₂ : List α), l₁.find? p = none →
      updateFirst p f (l₁ ++ l₂) = l₁ ++ updateFirst p f l₂
  | [], _, _ => rfl
  | x :: xs, l₂, h => by
    rw [List.find?_cons] at h
    rcases hpx : p x with _ | _
    · rw [hpx] at h
      simp only [cond_false] at h
      simp [updateFirst, hpx, updateFirst_append_of_none p f xs l₂ h]
    · rw [hpx] at h
      simp at h

theorem countP_updateFirst (p : α → Bool) (f : α → α)
    (hpf : ∀ x, p (f x) = p x) :
    ∀ l : List α, (updateFirst p f l).countP p = l.countP p
  | [] => rfl
  | x :: xs => by
    by_cases hpx : p x = true
    · simp [updateFirst, hpx, List.countP_cons, hpf]
    · have hpx' : p x = false := by revert hpx; cases p x <;> simp
      simp [updateFirst, hpx', List.countP_cons,
        countP_updateFirst p f hpf xs]

theorem find?_isSome_updateFirst (p q : α → Bool) (f : α → α)
    (hqf : ∀ x, q (f x) = q x) :
    ∀ l : List α, (l.find? q).isSome → ((updateFirst p f l).find? q).isSome
  | [], h => h
  | x :: xs, h => by
    simp only [updateFirst]
    split
    · rcases hqx : q x with _ | _
      · simp only [List.find?_cons, hqx, cond_false] at h
        simp [List.find?_cons, hqf, hqx, h]
      · simp [List.find?_cons, hqf, hqx]
    · rcases hqx : q x with _ | _
      · simp only [List.find?_cons, hqx, cond_false] at h
        simp [List.find?_cons, hqx,
          find?_isSome_updateFirst p q f hqf xs h]
      · simp [List.find?_cons, hqx]

theorem any_eq_false_of_find?_none {p : α → Bool} {l : List α}
    (h : l.find? p = none) : l.any p = false := by
  rw [List.any_eq_false]
  intro x hx
  exact List.find?_eq_none.mp h x hx

theorem updateLastSeen_spec (s : PState) (id now : Nat) :
    (updateLastSeen s id now).2.links = s.links ∧
    (updateLastSeen s id now).2.nextJobId = s.nextJobId ∧
    (updateLastSeen s id now).2.jobs.length = s.jobs.length ∧
    ∀ k : Nat, (updateLastSeen s id now).2.jobs[k]? = s.jobs[k]? ∨
      ∃ jk, s.jobs[k]? = some jk ∧ jk.id = id ∧
        (updateLastSeen s id now).2.jobs[k]? = some { jk with last_seen_at := now } := by
  rw [updateLastSeen.eq_def]
  cases hg : getJob s id with
  | none => exact ⟨rfl, rfl, rfl, fun k => Or.inl rfl⟩
  | some j0 =>
    refine ⟨rfl, rfl, updateFirst_length _ _ s.jobs, fun k => ?_⟩
    rcases updateFirst_getElem? (fun x => x.id == id)
        (fun x => { x with last_seen_at := now }) s.jobs k with h | ⟨x, hx, hpx, hfx⟩
    · exact Or.inl h
    · exact Or.inr ⟨x, hx, beq_iff_eq.mp hpx, hfx⟩

/-- C3 (existing-job frame): when the posting's signature matches a
stored job, `process_job` returns that job's id, and the only state change
is that the matched record's `last_seen_at` becomes `now`: links and the id
counter are untouched, the job list keeps its length, and every stored row
is either unchanged or is the signature-matched row with only `last_seen_at`
replaced — in particular `title`, `description`, `requirements` survive even
though the posting carries a different description. -/
theorem C3_existing_job_frame (cache : Cache) (llm : LlmOracle) (race : Option Job)
    (linkFails : Bool) (now : Nat) (s : PState) (company_id : Nat) (jd : JobData)
    (t d : String) (j : Job)
    (ht : jd.title = some t) (ht' : t ≠ "")
    (hd : jd.description = some d) (hd' : d ≠ "")
    (hfind : getBySignature s (generate_signature company_id t) = some j) :
    (processJob cache llm race linkFails now s company_id jd).1 = some j.id ∧
    (processJob cache llm race linkFails now s company_id jd).2.links = s.links ∧
    (processJob cache llm race linkFails now s company_id jd).2.nextJobId = s.nextJobId ∧
    (processJob cache llm race linkFails now s company_id jd).2.jobs.length = s.jobs.length ∧
    ∀ k : Nat,
      (processJob cache llm race linkFails now s company_id jd).2.jobs[k]? = s.jobs[k]? ∨
      ∃ jk, s.jobs[k]? = some jk ∧ jk.id = j.id ∧
        (processJob cache llm race linkFails now s company_id jd).2.jobs[k]?
          = some { jk with last_seen_at := now } := by
  have hf1 : pyFalsyStr (some t) = false := beq_eq_false_iff_ne.mpr ht'
  have hf2 : pyFalsyStr (some d) = false := beq_eq_false_iff_ne.mpr hd'
  have hmain : processJob cache llm race linkFails now s company_id jd
      = (some j.id, (updateLastSeen s j.id now).2) := by
    rw [processJob.eq_def]
    simp only [ht, hd, hf1, hf2, Bool.or_false, Bool.false_eq_true, if_false,
      Option.getD_some, hfind]
  rw [hmain]
  exact ⟨rfl, (updateLastSeen_spec s j.id now).1, (updateLastSeen_spec s j.id now).2.1,
    (updateLastSeen_spec s j.id now).2.2.1, (updateLastSeen_spec s j.id now).2.2.2⟩

/-- Witness for C3: upserting `("Backend Engineer", "changed description")`
against a store already holding that signature with `"original
description"`. -/
theorem C3_existing_job_frame_witness :
    (processJob [] llmQuiet none false 9 c3State 7 c3JobData).1 = some c3Job.id ∧
    (processJob [] llmQuiet none false 9 c3State 7 c3JobData).2.links = c3State.links ∧
    (processJob [] llmQuiet none false 9 c3State 7 c3JobData).2.nextJobId = c3State.nextJobId ∧
    (processJob [] llmQuiet none false 9 c3State 7 c3JobData).2.jobs.length = c3State.jobs.length ∧
    ∀ k : Nat,
      (processJob [] llmQuiet none false 9 c3State 7 c3JobData).2.jobs[k]? = c3State.jobs[k]? ∨
      ∃ jk, c3State.jobs[k]? = some jk ∧ jk.id = c3Job.id ∧
        (processJob [] llmQuiet none false 9 c3State 7 c3JobData).2.jobs[k]?
          = some { jk with last_seen_at := 9 } := by
  refine C3_existing_job_frame [] llmQuiet none false 9 c3State 7 c3JobData
    "Backend Engineer" "changed description" c3Job rfl (by decide) rfl (by decide) ?_
  show List.find? (fun x => x.signature == generate_signature 7 "Backend Engineer") [c3Job]
      = some c3Job
  rw [List.find?_cons]
  have hs : (c3Job.signature == generate_signature 7 "Backend Engineer") = true := by
    have he : c3Job.signature = generate_signature 7 "Backend Engineer" := rfl
    rw [he]
    exact beq_self_eq_true _
  rw [hs]

/-- C4: the claim expects a uniqueness-violation race at insert time to
re-resolve to the existing job's id.  The code instead catches the
`IntegrityError` in `process_job`'s blanket `except Exception` and returns
`None`: here the conflicting row (id 77, same signature) is in the store
when the insert fires, yet `process_job` reports no id. -/
theorem C4_uniqueness_race_returns_none :
    (processJob [] llmQuiet (some c4Race) false 5 ⟨[], [], 0⟩ 1 c4JobData).1 = none ∧
    (processJob [] llmQuiet (some c4Race) false 5 ⟨[], [], 0⟩ 1 c4JobData).2.jobs
      = [c4Race] ∧
    c4Race.signature = generate_signature 1 "X" ∧ c4Race.id = 77 := by
  have hmain : processJob [] llmQuiet (some c4Race) false 5 ⟨[], [], 0⟩ 1 c4JobData
      = (none, ⟨[c4Race], [], 78⟩) := by
    rw [processJob.eq_def]
    have hf1 : pyFalsyStr c4JobData.title = false := by decide
    have hf2 : pyFalsyStr c4JobData.description = false := by decide
    simp only [hf1, hf2, Bool.or_false, Bool.false_eq_true, if_false]
    have hgd : c4JobData.title.getD "" = "X" := rfl
    rw [hgd]
    have hnone : getBySignature ⟨[], [], 0⟩ (generate_signature 1 "X") = none := rfl
    rw [hnone]
    simp only [List.nil_append, List.any_cons, List.any_nil, Bool.or_false]
    have hsig : (c4Race.signature == generate_signature 1 "X") = true := by
      have he : c4Race.signature = generate_signature 1 "X" := rfl
      rw [he]
      exact beq_self_eq_true _
    rw [hsig]
    simp only [Bool.true_or, if_true]
    refine congrArg (Prod.mk none) ?_
    have hid : c4Race.id = 77 := rfl
    simp [hid]
  rw [hmain]
  exact ⟨rfl, rfl, rfl, rfl⟩

theorem find?_append_of_none (p : α → Bool) :
    ∀ (l₁ l₂ : List α), l₁.find? p = none → (l₁ ++ l₂).find? p = l₂.find? p
  | [], _, _ => rfl
  | x :: xs, l₂, h => by
    rcases hpx : p x with _ | _
    · simp only [List.find?_cons, hpx, cond_false] at h
      simp only [List.cons_append, List.find?_cons, hpx, cond_false]
      exact find?_append_of_none p xs l₂ h
    · simp only [List.find?_cons, hpx, cond_true] at h
      cases h

theorem addTechnology_jobs (s : PState) (jid tid : Nat) (b : Bool) :
    (addTechnology s jid tid b).2.jobs = s.jobs ∧
    (addTechnology s jid tid b).2.nextJobId = s.nextJobId := by
  rw [addTechnology.eq_def]
  cases getJob s jid with
  | none => exact ⟨rfl, rfl⟩
  | some j =>
    cases s.links.find? (fun l => l.job_id == jid && l.technology_id == tid) with
    | none => exact ⟨rfl, rfl⟩
    | some l => exact ⟨rfl, rfl⟩

theorem addLinksLoop_jobs (lf : Bool) (jid : Nat) :
    ∀ (l : List (Nat × Bool)) (s : PState),
      (addLinksLoop lf s jid l).jobs = s.jobs ∧
      (addLinksLoop lf s jid l).nextJobId = s.nextJobId
  | [], _ => ⟨rfl, rfl⟩
  | (tid, p) :: rest, s => by
    cases hlf : lf with
    | true => simp [addLinksLoop]
    | false =>
      simp only [addLinksLoop, Bool.false_eq_true, if_false]
      have h1 := addTechnology_jobs s jid tid p
      have h2 := addLinksLoop_jobs false jid rest (addTechnology s jid tid p).2
      exact ⟨h2.1.trans h1.1, h2.2.trans h1.2⟩

theorem addLinksLoop_true (jid : Nat) :
    ∀ (l : List (Nat × Bool)) (s : PState), addLinksLoop true s jid l = s
  | [], _ => rfl
  | (tid, p) :: rest, s => by simp [addLinksLoop]

theorem processTechnologies_jobs (cache : Cache) (llm : LlmOracle) (lf : Bool)
    (s : PState) (jid : Nat) (t d : String) :
    (processTechnologies cache llm lf s jid t d).jobs = s.jobs ∧
    (processTechnologies cache llm lf s jid t d).nextJobId = s.nextJobId := by
  simp only [processTechnologies]
  cases h : (extractTechnologies cache llm t d).isEmpty with
  | true => simp [h]
  | false =>
    simp only [h, Bool.false_eq_true, if_false]
    exact addLinksLoop_jobs lf jid _ s

theorem processTechnologies_true (cache : Cache) (llm : LlmOracle)
    (s : PState) (jid : Nat) (t d : String) :
    processTechnologies cache llm true s jid t d = s := by
  simp only [processTechnologies]
  rw [addLinksLoop_true]
  exact ite_self s

theorem getBySignature_updateLastSeen_isSome {s : PState} {sig : String}
    (id now : Nat) (h : (getBySignature s sig).isSome) :
    (getBySignature (updateLastSeen s id now).2 sig).isSome := by
  rw [updateLastSeen.eq_def]
  cases getJob s id with
  | none => exact h
  | some j0 =>
    exact find?_isSome_updateFirst (fun x : Job => x.id == id)
      (fun j : Job => j.signature == sig)
      (fun x : Job => { x with last_seen_at := now })
      (fun x => rfl) s.jobs h

/-- Branch analysis of `process_job` on a non-rejected posting with no
interfering writer: either the signature hit an existing row, or a fresh row
was inserted and the technology step ran against the extended store. -/
theorem processJob_shape (cache : Cache) (llm : LlmOracle) (linkFails : Bool)
    (now : Nat) (s : PState) (company_id : Nat) (jd : JobData)
    (hfalsy : (pyFalsyStr jd.title || pyFalsyStr jd.description) = false) :
    (∃ j, getBySignature s (generate_signature company_id (jd.title.getD "")) = some j ∧
      processJob cache llm none linkFails now s company_id jd
        = (some j.id, (updateLastSeen s j.id now).2)) ∨
    (getBySignature s (generate_signature company_id (jd.title.getD "")) = none ∧
      processJob cache llm none linkFails now s company_id jd
        = (some s.nextJobId,
           processTechnologies cache llm linkFails
             ⟨s.jobs ++ [mkNewJob now s company_id jd], s.links, s.nextJobId + 1⟩
             s.nextJobId (jd.title.getD "") (jd.description.getD ""))) := by
  rw [processJob.eq_def]
  simp only [hfalsy, Bool.false_eq_true, if_false]
  cases hfind : getBySignature s (generate_signature company_id (jd.title.getD "")) with
  | some j => exact Or.inl ⟨j, rfl, rfl⟩
  | none =>
    refine Or.inr ⟨rfl, ?_⟩
    have hany : s.jobs.any
        (fun j => j.signature == generate_signature company_id (jd.title.getD "")) = false :=
      any_eq_false_of_find?_none hfind
    simp only [hany, Bool.false_eq_true, if_false]
    rfl

/-- Running `process_job` a second time on the identical posting neither adds
a job row nor touches the link rows. -/
theorem processJob_rerun (cache : Cache) (llm : LlmOracle) (lf : Bool)
    (now : Nat) (s : PState) (cid : Nat) (jd : JobData) :
    (processJob cache llm none lf now
        (processJob cache llm none lf now s cid jd).2 cid jd).2.jobs.length
      = (processJob cache llm none lf now s cid jd).2.jobs.length ∧
    (processJob cache llm none lf now
        (processJob cache llm none lf now s cid jd).2 cid jd).2.links
      = (processJob cache llm none lf now s cid jd).2.links := by
  by_cases hfalsy : (pyFalsyStr jd.title || pyFalsyStr jd.description) = true
  · have h1 : ∀ st, processJob cache llm none lf now st cid jd = (none, st) := by
      intro st
      rw [processJob.eq_def]
      simp [hfalsy]
    simp [h1]
  · have hfalsy' : (pyFalsyStr jd.title || pyFalsyStr jd.description) = false := by
      revert hfalsy; cases (pyFalsyStr jd.title || pyFalsyStr jd.description) <;> simp
    have second : ∀ st : PState, (getBySignature st (generate_signature cid (jd.title.getD ""))).isSome →
        (processJob cache llm none lf now st cid jd).2.jobs.length = st.jobs.length ∧
        (processJob cache llm none lf now st cid jd).2.links = st.links := by
      intro st hsome
      rcases processJob_shape cache llm lf now st cid jd hfalsy' with ⟨j3, _, heq2⟩ | ⟨hn2, _⟩
      · rw [heq2]
        exact ⟨(updateLastSeen_spec st j3.id now).2.2.1, (updateLastSeen_spec st j3.id now).1⟩
      · rw [hn2] at hsome
        cases hsome
    rcases processJob_shape cache llm lf now s cid jd hfalsy' with ⟨j, hj, heq⟩ | ⟨hn, heq⟩
    · rw [heq]
      refine second _ ?_
      exact getBySignature_updateLastSeen_isSome j.id now (by rw [hj]; rfl)
    · rw [heq]
      refine second _ ?_
      have hjobs : (processTechnologies cache llm lf
          ⟨s.jobs ++ [mkNewJob now s cid jd], s.links, s.nextJobId + 1⟩
          s.nextJobId (jd.title.getD "") (jd.description.getD "")).jobs
          = s.jobs ++ [mkNewJob now s cid jd] :=
        (processTechnologies_jobs cache llm lf _ s.nextJobId _ _).1
      show (List.find? _ _).isSome
      rw [hjobs, find?_append_of_none _ s.jobs _ hn]
      have hsig : ((mkNewJob now s cid jd).signature
          == generate_signature cid (jd.title.getD "")) = true := by
        have he : (mkNewJob now s cid jd).signature
            = generate_signature cid (jd.title.getD "") := rfl
        rw [he]
        exact beq_self_eq_true _
      simp [List.find?_cons, hsig]

theorem updateFirst_eq_map_of_nodup :
    ∀ (l : List Job), ((l.map (fun j => j.id)).Nodup) → ∀ (i : Nat) (f : Job → Job),
      updateFirst (fun j => j.id == i) f l
        = l.map (fun j => if j.id == i then f j else j)
  | [], _, _, _ => rfl
  | x :: xs, h, i, f => by
    have h' := h
    rw [List.map_cons] at h'
    obtain ⟨hx, hxs⟩ := List.nodup_cons.mp h'
    by_cases hxi : (x.id == i) = true
    · have hxi' : x.id = i := beq_iff_eq.mp hxi
      simp only [updateFirst, hxi, if_true, List.map_cons]
      refine congrArg (List.cons (f x)) ?_
      have : ∀ y ∈ xs, (if y.id == i then f y else y) = y := by
        intro y hy
        have hyne : (y.id == i) ≠ true := by
          intro hb
          exact hx (hxi' ▸ (beq_iff_eq.mp hb) ▸ List.mem_map_of_mem (fun j => j.id) hy)
        simp [hyne]
      rw [List.map_congr_left this, List.map_id']
    · simp only [updateFirst, hxi, if_false, List.map_cons]
      exact congrArg (List.cons x) (updateFirst_eq_map_of_nodup xs hxs i f)

theorem foldl_deactivate_eq_map :
    ∀ (ids : List Nat), ids.Nodup → ∀ (l : List Job), ((l.map (fun j => j.id)).Nodup) →
      ids.foldl (fun acc i => updateFirst (fun j => j.id == i)
          (fun j => { j with is_active := false }) acc) l
        = l.map (fun j => if j.id ∈ ids then { j with is_active := false } else j)
  | [], _, l, _ => by simp
  | i :: rest, hids, l, hl => by
    obtain ⟨hi, hrest⟩ := List.nodup_cons.mp hids
    rw [List.foldl_cons, updateFirst_eq_map_of_nodup l hl i _]
    have hcomp : ((l.map (fun j => if j.id == i then { j with is_active := false } else j)).map
        (fun j => j.id)) = l.map (fun j => j.id) := by
      rw [List.map_map]
      refine List.map_congr_left fun j _ => ?_
      by_cases hj : j.id = i <;> simp [hj]
    rw [foldl_deactivate_eq_map rest hrest _ (hcomp ▸ hl), List.map_map]
    refine List.map_congr_left fun j _ => ?_
    by_cases hji : j.id = i
    · have h1 : (j.id == i) = true := beq_iff_eq.mpr hji
      have h2 : j.id ∉ rest := hji ▸ hi
      simp [Function.comp, h1, h2, hji]
    · have h1 : (j.id == i) = false := beq_eq_false_iff_ne.mpr hji
      by_cases hmem : j.id ∈ rest <;>
        simp [Function.comp, h1, hmem, hji, List.mem_cons]

theorem foldl_updateIsActive_eq :
    ∀ (ids : List Nat) (s : PState),
      ids.foldl (fun st jid => updateIsActive st jid false) s
        = ⟨ids.foldl (fun acc i => updateFirst (fun j => j.id == i)
             (fun j => { j with is_active := false }) acc) s.jobs,
           s.links, s.nextJobId⟩
  | [], s => rfl
  | i :: rest, s => by
    rw [List.foldl_cons, List.foldl_cons, foldl_updateIsActive_eq rest _]
    rfl

/-- C8 (deactivation by set difference, amended): `mark_inactive_jobs`
flips `is_active` to false on exactly those jobs among the **first 100**
active rows of the company that `get_multi` returns (repository default
pagination `limit=100`) whose id is not in `active_job_ids`, leaves every
other row and the links untouched, and returns the number of jobs flipped.
(The original "exactly those jobs of that company that were active" fails
once a company holds more than 100 active rows, see `C8_counterexample`.) -/
theorem C8_deactivation_by_set_difference (s : PState) (company_id : Nat)
    (observed : List Nat) (hid : (s.jobs.map (fun j => j.id)).Nodup) :
    (markInactiveJobs s company_id observed).1
      = ((getMultiActive s company_id).filter
          (fun job => !(observed.contains job.id))).length ∧
    (markInactiveJobs s company_id observed).2.jobs
      = s.jobs.map (fun j =>
          if j.id ∈ ((getMultiActive s company_id).filter
              (fun job => !(observed.contains job.id))).map (fun j => j.id)
          then { j with is_active := false } else j) ∧
    (markInactiveJobs s company_id observed).2.links = s.links ∧
    (markInactiveJobs s company_id observed).2.nextJobId = s.nextJobId := by
  have hsub : ((getMultiActive s company_id).filter
      (fun job => !(observed.contains job.id))).Sublist s.jobs := by
    unfold getMultiActive
    exact (List.filter_sublist _).trans
      ((List.take_sublist _ _).trans
        ((List.drop_zero _ ▸ List.filter_sublist s.jobs : _)))
  have hids_nodup : (((getMultiActive s company_id).filter
      (fun job => !(observed.contains job.id))).map (fun j => j.id)).Nodup :=
    hid.sublist (hsub.map (fun j => j.id))
  simp only [markInactiveJobs]
  rw [foldl_updateIsActive_eq, foldl_deactivate_eq_map _ hids_nodup s.jobs hid]
  exact ⟨by simp, rfl, rfl, rfl⟩

/-- Counterexample to C8 as stated: 101 active jobs of company 1 and an
empty observed set.  The claim demands all 101 be deactivated and 101
returned; the code loads only `get_multi`'s default `limit=100` rows,
deactivates 100, returns 100, and one job stays active. -/
theorem C8_counterexample :
    (markInactiveJobs c8State 1 []).1 = 100 ∧
    (c8State.jobs.filter (fun j => j.company_id == 1 && j.is_active)).length = 101 ∧
    ((markInactiveJobs c8State 1 []).2.jobs.filter (fun j => j.is_active)).length = 1 := by
  decide

/-- Witness for C8 at the spec's example: stored active ids {10, 11, 12},
observed {10, 11}. -/
theorem C8_deactivation_by_set_difference_witness :
    (markInactiveJobs c8SmallState 1 [10, 11]).1
      = ((getMultiActive c8SmallState 1).filter
          (fun job => !([10, 11].contains job.id))).length ∧
    (markInactiveJobs c8SmallState 1 [10, 11]).2.jobs
      = c8SmallState.jobs.map (fun j =>
          if j.id ∈ ((getMultiActive c8SmallState 1).filter
              (fun job => !([10, 11].contains job.id))).map (fun j => j.id)
          then { j with is_active := false } else j) ∧
    (markInactiveJobs c8SmallState 1 [10, 11]).2.links = c8SmallState.links ∧
    (markInactiveJobs c8SmallState 1 [10, 11]).2.nextJobId = c8SmallState.nextJobId :=
  C8_deactivation_by_set_difference c8SmallState 1 [10, 11] (by decide)

theorem PState.ext' {a b : PState} (h1 : a.jobs = b.jobs) (h2 : a.links = b.links)
    (h3 : a.nextJobId = b.nextJobId) : a = b := by
  cases a
  cases b
  cases h1
  cases h2
  cases h3
  rfl

theorem addTechnology_none_case (s : PState) (jid tid : Nat) (b : Bool)
    (hg : getJob s jid = none) :
    (addTechnology s jid tid b).2 = s := by
  rw [addTechnology.eq_def, hg]

theorem addTechnology_append_case (s : PState) (jid tid : Nat) (b : Bool) (j : Job)
    (hg : getJob s jid = some j)
    (hfl : s.links.find? (fun l => l.job_id == jid && l.technology_id == tid) = none) :
    (addTechnology s jid tid b).2.links = s.links ++ [⟨jid, tid, b⟩] ∧
    (addTechnology s jid tid b).2.jobs = s.jobs ∧
    (addTechnology s jid tid b).2.nextJobId = s.nextJobId := by
  rw [addTechnology.eq_def, hg, hfl]
  exact ⟨rfl, rfl, rfl⟩

theorem addTechnology_update_case (s : PState) (jid tid : Nat) (b : Bool) (j : Job)
    (l0 : JobTechnology) (hg : getJob s jid = some j)
    (hfl : s.links.find? (fun l => l.job_id == jid && l.technology_id == tid) = some l0) :
    (addTechnology s jid tid b).2.links
      = updateFirst (fun l => l.job_id == jid && l.technology_id == tid)
          (fun l => { l with is_primary := b }) s.links ∧
    (addTechnology s jid tid b).2.jobs = s.jobs ∧
    (addTechnology s jid tid b).2.nextJobId = s.nextJobId := by
  rw [addTechnology.eq_def, hg, hfl]
  exact ⟨rfl, rfl, rfl⟩

/-- C7 (link-upsert idempotence): `add_technology` never produces a
second row for a `(job_id, technology_id)` pair (a pair count of at most one
is preserved), repeating the call is a no-op, an existing row has only its
`is_primary` field replaced while all other link rows and the job table are
untouched, and repeating the full `process_job` upsert on the identical
posting adds no job row and no link row. -/
theorem C7_link_upsert_idempotent (s : PState) (job_id technology_id : Nat)
    (is_primary : Bool) (cache : Cache) (llm : LlmOracle) (linkFails : Bool)
    (now company_id : Nat) (jd : JobData) :
    (addTechnology (addTechnology s job_id technology_id is_primary).2
        job_id technology_id is_primary).2
      = (addTechnology s job_id technology_id is_primary).2 ∧
    (s.links.countP (fun l => l.job_id == job_id && l.technology_id == technology_id) ≤ 1 →
      (addTechnology s job_id technology_id is_primary).2.links.countP
          (fun l => l.job_id == job_id && l.technology_id == technology_id) ≤ 1) ∧
    (addTechnology s job_id technology_id is_primary).2.jobs = s.jobs ∧
    (addTechnology s job_id technology_id is_primary).2.nextJobId = s.nextJobId ∧
    (∀ k, k < s.links.length →
      (addTechnology s job_id technology_id is_primary).2.links[k]? = s.links[k]? ∨
      ∃ l, s.links[k]? = some l ∧ l.job_id = job_id ∧ l.technology_id = technology_id ∧
        (addTechnology s job_id technology_id is_primary).2.links[k]?
          = some { l with is_primary := is_primary }) ∧
    ((processJob cache llm none linkFails now
        (processJob cache llm none linkFails now s company_id jd).2 company_id jd).2.jobs.length
      = (processJob cache llm none linkFails now s company_id jd).2.jobs.length ∧
     (processJob cache llm none linkFails now
        (processJob cache llm none linkFails now s company_id jd).2 company_id jd).2.links
      = (processJob cache llm none linkFails now s company_id jd).2.links) := by
  have hPf : ∀ x : JobTechnology,
      (((fun l : JobTechnology => l.job_id == job_id && l.technology_id == technology_id))
        { x with is_primary := is_primary })
      = ((fun l : JobTechnology => l.job_id == job_id && l.technology_id == technology_id) x) :=
    fun _ => rfl
  rcases hg : getJob s job_id with _ | j
  · have h1 : (addTechnology s job_id technology_id is_primary).2 = s :=
      addTechnology_none_case s job_id technology_id is_primary hg
    rw [h1]
    exact ⟨h1, fun h => h, rfl, rfl, fun k _ => Or.inl rfl,
      processJob_rerun cache llm linkFails now s company_id jd⟩
  · rcases hfl : s.links.find?
        (fun l => l.job_id == job_id && l.technology_id == technology_id) with _ | l0
    · -- no existing link: a fresh row is appended
      have hPlt : ((⟨job_id, technology_id, is_primary⟩ : JobTechnology).job_id == job_id
          && (⟨job_id, technology_id, is_primary⟩ : JobTechnology).technology_id == technology_id)
          = true := by simp
      obtain ⟨hlinks1, hjobs1, hnext1⟩ :=
        addTechnology_append_case s job_id technology_id is_primary j hg hfl
      have hg2 : getJob (addTechnology s job_id technology_id is_primary).2 job_id = some j := by
        unfold getJob at hg ⊢
        rw [hjobs1]
        exact hg
      have hfl2 : (addTechnology s job_id technology_id is_primary).2.links.find?
          (fun l => l.job_id == job_id && l.technology_id == technology_id)
          = some ⟨job_id, technology_id, is_primary⟩ := by
        rw [hlinks1, find?_append_of_none _ s.links _ hfl]
        simp [List.find?_cons, hPlt]
      obtain ⟨hlinks2, hjobs2, hnext2⟩ :=
        addTechnology_update_case _ job_id technology_id is_primary j
          ⟨job_id, technology_id, is_primary⟩ hg2 hfl2
      refine ⟨?_, ?_, hjobs1, hnext1, ?_,
        processJob_rerun cache llm linkFails now s company_id jd⟩
      · refine PState.ext' hjobs2 ?_ hnext2
        rw [hlinks2, hlinks1, updateFirst_append_of_none _ _ s.links _ hfl]
        simp [updateFirst, hPlt]
      · intro hcount
        rw [hlinks1, List.countP_append]
        have hzero : s.links.countP
            (fun l => l.job_id == job_id && l.technology_id == technology_id) = 0 :=
          List.countP_eq_zero.mpr (List.find?_eq_none.mp hfl)
        simp [hzero, List.countP_cons, hPlt]
      · intro k hk
        rw [hlinks1]
        exact Or.inl (List.getElem?_append_left hk)
    · -- existing link: only is_primary is replaced
      obtain ⟨hlinks1, hjobs1, hnext1⟩ :=
        addTechnology_update_case s job_id technology_id is_primary j l0 hg hfl
      have hg2 : getJob (addTechnology s job_id technology_id is_primary).2 job_id = some j := by
        unfold getJob at hg ⊢
        rw [hjobs1]
        exact hg
      have hfl2 : (addTechnology s job_id technology_id is_primary).2.links.find?
          (fun l => l.job_id == job_id && l.technology_id == technology_id)
          = some { l0 with is_primary := is_primary } := by
        rw [hlinks1, find?_updateFirst _ _ hPf s.links, hfl]
        rfl
      obtain ⟨hlinks2, hjobs2, hnext2⟩ :=
        addTechnology_update_case _ job_id technology_id is_primary j
          { l0 with is_primary := is_primary } hg2 hfl2
      refine ⟨?_, ?_, hjobs1, hnext1, ?_,
        processJob_rerun cache llm linkFails now s company_id jd⟩
      · refine PState.ext' hjobs2 ?_ hnext2
        rw [hlinks2, hlinks1,
          updateFirst_updateFirst
            (fun l : JobTechnology => l.job_id == job_id && l.technology_id == technology_id)
            (fun l : JobTechnology => { l with is_primary := is_primary })
            (fun x => rfl) (fun x => rfl) s.links]
      · intro hcount
        rw [hlinks1, countP_updateFirst _ _ hPf s.links]
        exact hcount
      · intro k hk
        rw [hlinks1]
        rcases updateFirst_getElem?
            (fun l => l.job_id == job_id && l.technology_id == technology_id)
            (fun l => { l with is_primary := is_primary }) s.links k with h | ⟨x, hx, hpx, hfx⟩
        · exact Or.inl h
        · have hx12 : x.job_id = job_id ∧ x.technology_id = technology_id := by
            have := hpx
            simp only [Bool.and_eq_true, beq_iff_eq] at this
            exact this
          exact Or.inr ⟨x, hx, hx12.1, hx12.2, hfx⟩

/-- Witness for C7: one job, one existing link `(1, 9)`, upserted with a new
primary flag. -/
theorem C7_link_upsert_idempotent_witness :
    (addTechnology (addTechnology c7State 1 9 true).2 1 9 true).2
      = (addTechnology c7State 1 9 true).2 ∧
    (addTechnology c7State 1 9 true).2.links.countP
        (fun l => l.job_id == 1 && l.technology_id == 9) ≤ 1 ∧
    (addTechnology c7State 1 9 true).2.jobs = c7State.jobs := by
  have h := C7_link_upsert_idempotent c7State 1 9 true [] llmQuiet false 0 0
    (mkJobData none none)
  exact ⟨h.1, h.2.1 (by decide), h.2.2.1⟩

/-- C10 (implicit totality of `process_job`): the function always returns
an id or `None` — no modelled failure escapes as an exception — and when a
fresh job row is created but every subsequent `add_technology` write fails,
the failure is swallowed: `process_job` still returns the new row's id while
the link table is exactly as before (a job can be reported processed with no
technology links). -/
theorem C10_process_job_totality (cache : Cache) (llm : LlmOracle)
    (race : Option Job) (linkFails : Bool) (now : Nat) (s : PState)
    (company_id : Nat) (jd : JobData) :
    ((processJob cache llm race linkFails now s company_id jd).1 = none ∨
      ∃ i, (processJob cache llm race linkFails now s company_id jd).1 = some i) ∧
    (∀ t d, jd.title = some t → t ≠ "" → jd.description = some d → d ≠ "" →
      getBySignature s (generate_signature company_id t) = none →
      (processJob cache llm none true now s company_id jd).1 = some s.nextJobId ∧
      (processJob cache llm none true now s company_id jd).2.links = s.links ∧
      (processJob cache llm none true now s company_id jd).2.jobs
        = s.jobs ++ [mkNewJob now s company_id jd] ∧
      (mkNewJob now s company_id jd).id = s.nextJobId ∧
      (mkNewJob now s company_id jd).title = t ∧
      (mkNewJob now s company_id jd).description = d) := by
  constructor
  · cases (processJob cache llm race linkFails now s company_id jd).1 with
    | none => exact Or.inl rfl
    | some i => exact Or.inr ⟨i, rfl⟩
  · intro t d ht ht' hd hd' hsig
    have hf1 : pyFalsyStr (some t) = false := beq_eq_false_iff_ne.mpr ht'
    have hf2 : pyFalsyStr (some d) = false := beq_eq_false_iff_ne.mpr hd'
    have hfalsy : (pyFalsyStr jd.title || pyFalsyStr jd.description) = false := by
      rw [ht, hd, hf1, hf2]
      rfl
    have hsig' : getBySignature s (generate_signature company_id (jd.title.getD "")) = none := by
      rw [ht]
      exact hsig
    rcases processJob_shape cache llm true now s company_id jd hfalsy with
      ⟨j, hj, _⟩ | ⟨_, heq⟩
    · rw [hsig'] at hj
      cases hj
    · rw [heq, processTechnologies_true]
      refine ⟨rfl, rfl, rfl, rfl, ?_, ?_⟩
      · show jd.title.getD "" = t
        rw [ht]
        rfl
      · show jd.description.getD "" = d
        rw [hd]
        rfl

/-- Witness for C10: fresh posting on an empty store whose link writes all
fail. -/
theorem C10_process_job_totality_witness :
    ((processJob [("python", 1)] llmPython none true 0 ⟨[], [], 0⟩ 3
        (mkJobData (some "New Role") (some "We use Python daily"))).1 = none ∨
      ∃ i, (processJob [("python", 1)] llmPython none true 0 ⟨[], [], 0⟩ 3
        (mkJobData (some "New Role") (some "We use Python daily"))).1 = some i) ∧
    (processJob [("python", 1)] llmPython none true 0 ⟨[], [], 0⟩ 3
        (mkJobData (some "New Role") (some "We use Python daily"))).1 = some 0 ∧
    (processJob [("python", 1)] llmPython none true 0 ⟨[], [], 0⟩ 3
        (mkJobData (some "New Role") (some "We use Python daily"))).2.links = [] ∧
    (processJob [("python", 1)] llmPython none true 0 ⟨[], [], 0⟩ 3
        (mkJobData (some "New Role") (some "We use Python daily"))).2.jobs
      = [] ++ [mkNewJob 0 ⟨[], [], 0⟩ 3
          (mkJobData (some "New Role") (some "We use Python daily"))] := by
  have h := C10_process_job_totality [("python", 1)] llmPython none true 0
    ⟨[], [], 0⟩ 3 (mkJobData (some "New Role") (some "We use Python daily"))
  have h2 := h.2 "New Role" "We use Python daily" rfl (by decide) rfl (by decide) rfl
  exact ⟨h.1, h2.1, h2.2.1, h2.2.2.1⟩

end TicosInTech
